import Mathlib

/-!
# ScaryDuino: the `Animation` interface

The repository consists of one header, `animation.h`:

    class Animation {
     public:
      // Renders the next step in the animation.
      // pct is a value from [0,100] telling what state of
      // the animation to render where 0 is the beginning and
      // 100 is the completed animation.
      virtual void step(int pct) = 0;
    };

The class has no data members, no constructor and no method body.  Its one
member is the pure virtual method `step`.  The embedding below keeps that
shape: the state of an animation belongs to the implementing type, `step` is
a state transformer supplied by the implementing type, and a call through an
`Animation` reference dispatches to the `step` of the object held.
-/

namespace ScaryDuino

/-- The range the header documents for `pct`: "a value from [0,100]".  The
header only documents it; nothing in the class checks it. -/
def inRange (pct : Int) : Prop := 0 ≤ pct ∧ pct ≤ 100

instance (pct : Int) : Decidable (inRange pct) := by
  unfold inRange; infer_instance

/-- The abstract class `Animation`.  The class declares no data member, so the
state type `σ` is a parameter: it is whatever the implementing type stores.
The single field is `virtual void step(int pct) = 0`: it takes the `int`
argument and the object it is called on, and, being `void`, yields nothing
but the object after the call.  The interface does no arithmetic on `pct`, so
`int` is read as `Int`; every machine `int` is among its values.  The declaration carries no `noexcept`, so a
body may also leave by throwing; `ε` is the type of what it throws.  The
field has no default value, as the method has no body in the class. -/
structure Animation (ε σ : Type) where
  step : Int → σ → Except ε σ

/-- An `Animation&` (or `Animation*`) held by a caller: an object of some
implementing type, unknown to the caller, together with the method table of
that type. -/
structure AnimationRef (ε : Type) where
  σ : Type
  impl : Animation ε σ
  obj : σ

namespace AnimationRef

/-- The call `r.step(pct)` made through the reference: virtual dispatch to the
`step` of the implementing type, run on the object held.  The argument is
handed over as it is. -/
def step {ε : Type} (r : AnimationRef ε) (pct : Int) : Except ε (AnimationRef ε) :=
  match r.impl.step pct r.obj with
  | Except.ok s => Except.ok ⟨r.σ, r.impl, s⟩
  | Except.error e => Except.error e

/-- The statement sequence `r.step(p₁); r.step(p₂); ...; r.step(pₙ);` run by a
driver: the calls are made in order, and a call that throws ends the
sequence. -/
def drive {ε : Type} : List Int → AnimationRef ε → Except ε (AnimationRef ε)
  | [], r => Except.ok r
  | p :: ps, r =>
    match r.step p with
    | Except.ok r' => drive ps r'
    | Except.error e => Except.error e

/-- A caller that holds several animations and makes the same call
`step(pct)` on each of them. -/
def stepAll {ε : Type} (rs : List (AnimationRef ε)) (pct : Int) :
    List (Except ε (AnimationRef ε)) :=
  rs.map fun r => r.step pct

end AnimationRef

/-! ## Implementing types used as examples -/

/-- Modelled from the spec: the minimal test double of the spec's testable
properties, absent from the repository.  It implements `Animation` by
recording the last value passed to `step`; its state is the recorded value,
`none` before the first call. -/
def Recorder.animation {ε : Type} : Animation ε (Option Int) where
  step pct _ := Except.ok (some pct)

/-- Modelled from the spec: a reference to a test double whose recorded value
is `last`. -/
def Recorder.ref {ε : Type} (last : Option Int) : AnimationRef ε :=
  ⟨Option Int, Recorder.animation, last⟩

/-- An implementing type that counts its calls and throws on a `pct` outside
the documented range, which the header leaves it free to do. -/
def Strict.animation : Animation Int Nat where
  step pct n := if inRange pct then Except.ok (n + 1) else Except.error pct

/-- A reference to a strict animation that has been stepped `n` times. -/
def Strict.ref (n : Nat) : AnimationRef Int :=
  ⟨Nat, Strict.animation, n⟩

/-! ## Calls through a reference -/

section Theorems

variable {ε σ τ : Type}

open AnimationRef

/-- A call through a reference to an object `s` of an implementing type `a`
is the `step` of `a` on `s`, wrapped again as a reference. -/
theorem AnimationRef.step_eq_impl (a : Animation ε σ) (s : σ) (pct : Int) :
    (AnimationRef.mk σ a s).step pct = (a.step pct s).map (AnimationRef.mk σ a) := by
  unfold AnimationRef.step
  cases h : a.step pct s <;> simp [Except.map]

/-- A sequence of calls through a reference folds the implementing type's
`step` over the arguments, from the left. -/
theorem AnimationRef.drive_eq_foldlM (a : Animation ε σ) (l : List Int) (s : σ) :
    drive l (AnimationRef.mk σ a s)
      = (l.foldlM (fun st p => a.step p st) s).map (AnimationRef.mk σ a) := by
  induction l generalizing s with
  | nil => rfl
  | cons p ps ih =>
    simp only [drive, List.foldlM_cons]
    unfold AnimationRef.step
    cases h : a.step p s with
    | error e => simp [Except.map, bind, Except.bind]
    | ok s' => simp [ih, bind, Except.bind]

/-- C2: for `pct` in [0, 100], a call through a reference returns normally
whenever the implementing type's own `step` does, with the state that `step`
produced, and it throws only what the implementing type's `step` threw: the
interface adds no check that rejects an in-range value. -/
theorem AnimationRef.step_inRange_legal (r : AnimationRef ε) (p : Int) (_hp : inRange p) :
    (∀ s, r.impl.step p r.obj = Except.ok s → r.step p = Except.ok ⟨r.σ, r.impl, s⟩) ∧
    (∀ e, r.step p = Except.error e → r.impl.step p r.obj = Except.error e) := by
  unfold AnimationRef.step
  constructor
  · intro s hs
    simp [hs]
  · intro e he
    cases hi : r.impl.step p r.obj with
    | error e' => simpa [hi] using he
    | ok s => simp [hi] at he

/-- A strict animation stepped with 50, a value in range, returns normally. -/
theorem AnimationRef.step_inRange_legal_witness :
    inRange 50 ∧ (Strict.ref 0).step 50 = Except.ok (Strict.ref 1) :=
  ⟨by decide, (AnimationRef.step_inRange_legal (Strict.ref 0) 50 (by decide)).1 (1 : Nat) rfl⟩

/-- C3: driven through the interface with a non-empty sequence of calls, from
any recorded value, the test double ends up recording the argument of the
last call; after `step(0)`, `step(50)`, `step(100)` that is 100. -/
theorem Recorder.drive_records_last (l : List Int) (h : l ≠ []) (s0 : Option Int) :
    drive l (Recorder.ref s0 : AnimationRef ε)
      = Except.ok (Recorder.ref (some (l.getLast h))) := by
  induction l generalizing s0 with
  | nil => exact absurd rfl h
  | cons p ps ih =>
    cases ps with
    | nil => rfl
    | cons q qs =>
      have hstep : drive (p :: q :: qs) (Recorder.ref s0 : AnimationRef ε)
          = drive (q :: qs) (Recorder.ref (some p)) := rfl
      rw [hstep, ih (List.cons_ne_nil q qs) (some p), List.getLast_cons (List.cons_ne_nil q qs)]

/-- The sequencing check of the spec: after `step(0)`, `step(50)`, `step(100)`
the test double reports 100. -/
theorem Recorder.drive_records_last_witness :
    [0, 50, 100] ≠ ([] : List Int) ∧
    drive [0, 50, 100] (Recorder.ref none : AnimationRef Unit)
      = Except.ok (Recorder.ref (some 100)) :=
  ⟨by decide, Recorder.drive_records_last [0, 50, 100] (by decide) none⟩

/-- C5: for every integer `pct`, in the documented range or not, the call
through a reference is the implementing type's `step` on that same `pct`; it
throws exactly when, and exactly what, the implementing type's `step`
throws. -/
theorem AnimationRef.step_passes_pct (a : Animation ε σ) (s : σ) (pct : Int) :
    (AnimationRef.mk σ a s).step pct = (a.step pct s).map (AnimationRef.mk σ a) ∧
    ∀ e, (AnimationRef.mk σ a s).step pct = Except.error e ↔ a.step pct s = Except.error e := by
  refine ⟨AnimationRef.step_eq_impl a s pct, fun e => ?_⟩
  rw [AnimationRef.step_eq_impl]
  cases a.step pct s <;> simp [Except.map]

/-- C6: for every finite sequence of integers, in whatever order and with
whatever repetitions, driving an implementation through the interface gives
the left-to-right composition of the implementing type's `step` over the
sequence, in call order. -/
theorem AnimationRef.drive_left_to_right (a : Animation ε σ) (l : List Int) (s : σ) :
    drive l (AnimationRef.mk σ a s)
      = (l.foldlM (fun st p => a.step p st) s).map (AnimationRef.mk σ a) :=
  AnimationRef.drive_eq_foldlM a l s

/-- C7: a caller holding two animations of different implementing types and
making the same call `step(pct)` on both gets, for each, the result of that
implementing type's own `step` on its own object; the other implementation
does not enter. -/
theorem AnimationRef.stepAll_pair (a : Animation ε σ) (b : Animation ε τ)
    (s : σ) (t : τ) (pct : Int) :
    stepAll [AnimationRef.mk σ a s, AnimationRef.mk τ b t] pct
      = [(a.step pct s).map (AnimationRef.mk σ a), (b.step pct t).map (AnimationRef.mk τ b)] := by
  simp [stepAll, AnimationRef.step_eq_impl]

end Theorems

end ScaryDuino
